import Mathlib

/-!
# Verification of the CoastSat-Mdp shoreline pipeline notebook

A shallow embedding of the shoreline time-series pipeline exercised by the
notebook `Cod General por locacion/MogotesTodo2004a2009.ipynb`:
image acquisition, sub-pixel shoreline extraction, transect intersection and
tidal correction.  Measurements that the code stores as floating-point
numbers are embedded as exact rationals; a `NaN` entry of a series is
embedded as `Option.none`.

The tidal-correction loop is transcribed directly from the notebook source.
The library entry points the notebook calls (`SDS_transects`, `SDS_tools`,
`SDS_shoreline`, `SDS_preprocess`) are not part of the repository; their
behaviour is modelled from the specification, with each such definition
marked `Modelled from the spec`.
-/

set_option autoImplicit false

namespace CoastSat

/-! ## Tidal correction (notebook source, cell "Tidal correction")

The notebook computes, for each transect key,
`correction = (tides_sat - reference_elevation)/beach_slope` and
`cross_distance_tidally_corrected[key] = cross_distance[key] + correction`.
A cross-distance series is an association list from transect name to the
per-date sequence of values, `none` standing for `NaN`. -/

/-- Per-date series of cross-shore distances; `none` embeds `NaN`. -/
abbrev Series := List (Option ℚ)

/-- A cross-distance mapping: transect name to per-date series, in key order. -/
abbrev CrossDistance := List (String × Series)

/-- NaN-propagating addition of a (finite) correction to a series value. -/
def addTide (o : Option ℚ) (c : ℚ) : Option ℚ := o.map (fun x => x + c)

/-- NaN-propagating subtraction of a (finite) correction from a series value. -/
def subTide (o : Option ℚ) (c : ℚ) : Option ℚ := o.map (fun x => x - c)

/-- NaN-propagating subtraction of two series values. -/
def optSub (a b : Option ℚ) : Option ℚ :=
  a.bind (fun x => b.map (fun y => x - y))

/-- The correction vector `(tides_sat - reference_elevation)/beach_slope`
computed in the notebook loop (it does not depend on the loop key). -/
def correction (tides : List ℚ) (ref slope : ℚ) : List ℚ :=
  tides.map (fun t => (t - ref) / slope)

/-- The notebook loop producing `cross_distance_tidally_corrected`: for every
key of `cross_distance`, the raw series plus the correction vector. -/
def tidalCorrect (cd : CrossDistance) (tides : List ℚ) (ref slope : ℚ) :
    CrossDistance :=
  cd.map (fun p => (p.1, List.zipWith addTide p.2 (correction tides ref slope)))

/-- The inverse transformation `corrected - (tide - reference_elevation)/slope`
described by the specification for recovering the raw series. -/
def tidalUncorrect (cd : CrossDistance) (tides : List ℚ) (ref slope : ℚ) :
    CrossDistance :=
  cd.map (fun p => (p.1, List.zipWith subTide p.2 (correction tides ref slope)))

/-! ## Output Collection and Post-Filter

Modelled from the spec: the library functions `SDS_tools.remove_duplicates`
and `SDS_tools.remove_inaccurate_georef` called by the notebook are not part
of the repository. -/

/-- One entry of the Output Collection: acquisition date, satellite name,
georeferencing-accuracy estimate (metres) and the shoreline points. -/
structure Entry where
  date : ℕ
  sat : String
  acc : ℚ
  points : List (ℚ × ℚ)
deriving DecidableEq, Repr

/-- The duplicate key of an entry: its (date, satellite) pair. -/
def keyOf (e : Entry) : ℕ × String := (e.date, e.sat)

/-- Recursion core of first-seen duplicate removal: `seen` holds the
(date, satellite) keys of the entries already kept. -/
def remove_duplicates_aux (seen : List (ℕ × String)) :
    List Entry → List Entry
  | [] => []
  | e :: rest =>
      if keyOf e ∈ seen then remove_duplicates_aux seen rest
      else e :: remove_duplicates_aux (keyOf e :: seen) rest

/-- Modelled from the spec: `SDS_tools.remove_duplicates` is missing from the
repository; the spec says duplicate (date, satellite) entries are collapsed
to one with an unspecified tie-break.  This model uses the first-seen
tie-break the spec offers as an example: the earliest entry of each
(date, satellite) group is kept. -/
def remove_duplicates (l : List Entry) : List Entry :=
  remove_duplicates_aux [] l

/-- Recursion core of keep-best duplicate removal: an entry is kept at its
own position when its key has not been kept yet and no later entry of the
same key has a strictly lower (better) accuracy estimate. -/
def remove_duplicates_best_aux (seen : List (ℕ × String)) :
    List Entry → List Entry
  | [] => []
  | e :: rest =>
      if keyOf e ∈ seen then remove_duplicates_best_aux seen rest
      else if rest.any (fun x =>
          decide (keyOf x = keyOf e) && decide (x.acc < e.acc)) then
        remove_duplicates_best_aux seen rest
      else e :: remove_duplicates_best_aux (keyOf e :: seen) rest

/-- Modelled from the spec: alternative model of `SDS_tools.remove_duplicates`
using the keep-best-accuracy tie-break the spec offers as its other example:
within each (date, satellite) group the entry with the lowest accuracy
estimate (best georeferencing) is kept, at its own position; ties on the
estimate keep the earliest such entry. -/
def remove_duplicates_best (l : List Entry) : List Entry :=
  remove_duplicates_best_aux [] l

/-- Modelled from the spec: `SDS_tools.remove_inaccurate_georef` is missing
from the repository; entries whose accuracy estimate exceeds the
caller-supplied threshold are removed. -/
def remove_inaccurate_georef (l : List Entry) (threshold : ℚ) : List Entry :=
  l.filter (fun e => decide (e.acc ≤ threshold))

/-- The Post-Filter as invoked by the notebook: duplicate removal followed by
accuracy-threshold removal. -/
def postFilter (l : List Entry) (threshold : ℚ) : List Entry :=
  remove_inaccurate_georef (remove_duplicates l) threshold

/-! ## Transect Intersector

Modelled from the spec: `SDS_transects.compute_intersection` is missing from
the repository.  A transect is given by its landward origin together with the
unit direction vector pointing to its seaward endpoint (the normalisation of
(seaward − landward), kept as data so the development stays over `ℚ`). -/

/-- Planar dot product. -/
def dot (a b : ℚ × ℚ) : ℚ := a.1 * b.1 + a.2 * b.2

/-- Vector difference of two points. -/
def vsub (a b : ℚ × ℚ) : ℚ × ℚ := (a.1 - b.1, a.2 - b.2)

/-- Rotation of a vector by a quarter turn (the along-shore normal). -/
def perp (u : ℚ × ℚ) : ℚ × ℚ := (-u.2, u.1)

/-- The along-shore offset of point `p` from the transect through `o` with
unit cross-shore direction `u`: the distance from `p` to its projection on
the transect line. -/
def alongOffset (o u p : ℚ × ℚ) : ℚ := |dot (vsub p o) (perp u)|

/-- The signed cross-shore distance of `p` along the transect direction `u`
measured from the landward origin `o`; positive is seaward. -/
def chainage (o u p : ℚ × ℚ) : ℚ := dot (vsub p o) u

/-- Modelled from the spec: the shoreline points within `alongDist` metres of
the transect's cross-shore projection. -/
def selectPoints (o u : ℚ × ℚ) (alongDist : ℚ) (pts : List (ℚ × ℚ)) :
    List (ℚ × ℚ) :=
  pts.filter (fun p => decide (alongOffset o u p ≤ alongDist))

/-- Median of a list of rationals with junk value `0` on the empty list:
middle element of the sorted list for odd length, mean of the two middle
elements for even length. -/
def medianD (xs : List ℚ) : ℚ :=
  let s := List.insertionSort (fun a b => a ≤ b) xs
  if xs.length % 2 = 1 then s.getD (xs.length / 2) 0
  else (s.getD (xs.length / 2 - 1) 0 + s.getD (xs.length / 2) 0) / 2

/-- Median of a list of rationals, `none` on the empty list. -/
def median (xs : List ℚ) : Option ℚ :=
  if xs.isEmpty then none else some (medianD xs)

/-- Modelled from the spec: intersection of one transect with one date's
shoreline — the median of the signed cross-shore distances of the points
within the along-shore window, `none` (NaN) when no point falls within it. -/
def intersectOne (o u : ℚ × ℚ) (alongDist : ℚ) (pts : List (ℚ × ℚ)) :
    Option ℚ :=
  median ((selectPoints o u alongDist pts).map (chainage o u))

/-- Modelled from the spec: `SDS_transects.compute_intersection` is missing
from the repository; for each named transect (origin, unit direction) and
each date's shoreline it produces the median intersection, assembling the
Cross-Distance Series. -/
def compute_intersection (shorelines : List (List (ℚ × ℚ)))
    (transects : List (String × (ℚ × ℚ) × (ℚ × ℚ))) (alongDist : ℚ) :
    CrossDistance :=
  transects.map (fun t => (t.1, shorelines.map (intersectOne t.2.1 t.2.2 alongDist)))

/-! ## Shoreline Extractor, step (f)

Modelled from the spec: `SDS_shoreline.extract_shorelines` is missing from
the repository; the claim concerns only its step (f), the discarding of
traced boundaries shorter than `min_length_sl`.  The perimeter-length
functional is abstracted as a parameter since the spec fixes only the
comparison against the threshold. -/

/-- Modelled from the spec: discard the traced boundaries of one scene whose
perimeter length is below `minLengthSl`. -/
def discardShort (len : List (ℚ × ℚ) → ℚ) (minLengthSl : ℚ)
    (traced : List (List (ℚ × ℚ))) : List (List (ℚ × ℚ)) :=
  traced.filter (fun b => decide (minLengthSl ≤ len b))

/-- Modelled from the spec: the shorelines `SDS_shoreline.extract_shorelines`
contributes to the Output Collection — per scene, the traced boundaries that
survive the `min_length_sl` filter, concatenated over all scenes. -/
def extract_shorelines (len : List (ℚ × ℚ) → ℚ) (minLengthSl : ℚ)
    (traced : List (List (List (ℚ × ℚ)))) : List (List (ℚ × ℚ)) :=
  (traced.map (discardShort len minLengthSl)).flatten

/-! ## Reference shoreline digitization -/

/-- Error kinds of the pipeline, as required by the spec. -/
inductive SDSError where
  | NoValidDetections
  | EmptySceneList
deriving DecidableEq, Repr

/-- Modelled from the spec: `SDS_preprocess.get_reference_sl` is missing from
the repository; the interactive digitization step fails with the distinct
fatal error `NoValidDetections` when zero scenes yield a valid shoreline,
distinguishable from an empty scene list.  `detect` abstracts the per-scene
detection outcome; on success the user digitizes over a valid detection. -/
def get_reference_sl {α : Type} (scenes : List α)
    (detect : α → Option (List (ℚ × ℚ))) : Except SDSError (List (ℚ × ℚ)) :=
  match scenes with
  | [] => Except.error SDSError.EmptySceneList
  | _ :: _ =>
    match scenes.filterMap detect with
    | [] => Except.error SDSError.NoValidDetections
    | sl :: _ => Except.ok sl

/-! ## Nearest-neighbour tide lookup -/

/-- The absolute time differences of the tide timestamps to date `d`. -/
def distsTo (ts : List ℤ) (d : ℤ) : List ℤ := ts.map (fun t => |t - d|)

/-- Modelled from the spec: the index of the tide sample nearest in time to
`d`; when two samples are equidistant the earliest one is taken, making the
lookup deterministic. -/
def closestIdx (ts : List ℤ) (d : ℤ) : ℕ :=
  match (distsTo ts d).min? with
  | none => 0
  | some m => (distsTo ts d).findIdx (fun x => decide (x = m))

/-- Modelled from the spec: `SDS_tools.get_closest_datapoint` is missing from
the repository; it resamples the Tide Series to the acquisition dates by
nearest-neighbour lookup, returning exactly one water level per date. -/
def get_closest_datapoint (datesSat : List ℤ) (ts : List ℤ)
    (tides : List ℚ) : List ℚ :=
  datesSat.map (fun d => tides.getD (closestIdx ts d) 0)

/-! ## Helper lemmas -/

lemma correction_getElem (tides : List ℚ) (ref slope : ℚ) (i : ℕ)
    (hi : i < tides.length) :
    (correction tides ref slope)[i]? = some ((tides[i] - ref) / slope) := by
  simp [correction, List.getElem?_eq_getElem hi]

/-- Pointwise description of the tidal-correction loop: entry `j` keeps its
key, and its series at date `i` is the raw value plus the correction. -/
lemma tidalCorrect_getElem (cd : CrossDistance) (tides : List ℚ)
    (ref slope : ℚ) (j i : ℕ) (k : String) (xs : Series)
    (hj : cd[j]? = some (k, xs)) (hi : i < xs.length) (ht : i < tides.length) :
    ∃ ys : Series, (tidalCorrect cd tides ref slope)[j]? = some (k, ys) ∧
      ys[i]? = some (addTide (xs[i]) ((tides[i] - ref) / slope)) := by
  refine ⟨List.zipWith addTide xs (correction tides ref slope), ?_, ?_⟩
  · simp [tidalCorrect, hj]
  · rw [List.getElem?_zipWith_eq_some]
    exact ⟨xs[i], (tides[i] - ref) / slope,
      List.getElem?_eq_getElem hi, correction_getElem tides ref slope i ht, rfl⟩

lemma zipWith_subTide_zipWith_addTide (xs : Series) (cs : List ℚ)
    (h : xs.length = cs.length) :
    List.zipWith subTide (List.zipWith addTide xs cs) cs = xs := by
  induction xs generalizing cs with
  | nil => simp
  | cons x xs ih =>
    cases cs with
    | nil => simp at h
    | cons c cs =>
      simp only [List.zipWith]
      have hx : subTide (addTide x c) c = x := by
        cases x <;> simp [addTide, subTide]
      rw [hx, ih cs (by simpa using h)]

/-! ## Theorems for the claims -/

/-- C1: for every transect name in the Cross-Distance Series and every date
index, the Tidal Corrector's output equals the raw cross-shore distance plus
(tide level at that date minus the reference elevation) divided by the beach
slope. -/
theorem c1_tidal_correction_formula (cd : CrossDistance) (tides : List ℚ)
    (ref slope : ℚ) (j i : ℕ) (k : String) (xs : Series)
    (hj : cd[j]? = some (k, xs)) (hi : i < xs.length) (ht : i < tides.length) :
    ∃ ys : Series, (tidalCorrect cd tides ref slope)[j]? = some (k, ys) ∧
      ys[i]? = some (addTide (xs[i]) ((tides[i] - ref) / slope)) :=
  tidalCorrect_getElem cd tides ref slope j i k xs hj hi ht

/-- Witness for C1 at a concrete input: one transect, raw value `2`, tide
`3`, reference elevation `0`, slope `1`. -/
theorem c1_tidal_correction_formula_witness :
    ∃ ys : Series,
      (tidalCorrect [("NA1", [some 2])] [3] 0 1)[0]? = some ("NA1", ys) ∧
        ys[0]? = some (addTide (some 2) ((3 - 0) / 1)) :=
  c1_tidal_correction_formula [("NA1", [some 2])] [3] 0 1 0 0 "NA1" [some 2]
    rfl (by decide) (by decide)

/-- C9: tidal correction is invertible — subtracting the same correction
vector from the corrected series recovers the raw series exactly (the
embedding works over exact rationals, so recovery is exact, in particular
within any floating-point tolerance). -/
theorem c9_tidal_correction_invertible (cd : CrossDistance) (tides : List ℚ)
    (ref slope : ℚ) (h : ∀ p ∈ cd, p.2.length = tides.length) :
    tidalUncorrect (tidalCorrect cd tides ref slope) tides ref slope = cd := by
  unfold tidalCorrect tidalUncorrect
  rw [List.map_map]
  calc cd.map (((fun p : String × Series =>
          (p.1, List.zipWith subTide p.2 (correction tides ref slope)))) ∘
          (fun p : String × Series =>
          (p.1, List.zipWith addTide p.2 (correction tides ref slope))))
      = cd.map id := by
        refine List.map_congr_left (fun p hp => ?_)
        have hlen : p.2.length = (correction tides ref slope).length := by
          simpa [correction] using h p hp
        simp only [Function.comp, id]
        exact Prod.ext rfl (zipWith_subTide_zipWith_addTide p.2 _ hlen)
    _ = cd := List.map_id cd

/-- Witness for C9 at a concrete input: one transect with a finite and a NaN
value, two tide samples. -/
theorem c9_tidal_correction_invertible_witness :
    tidalUncorrect
      (tidalCorrect [("NA1", [some 2, none])] [3, 5] 0 (1/10)) [3, 5] 0 (1/10)
      = [("NA1", [some 2, none])] :=
  c9_tidal_correction_invertible [("NA1", [some 2, none])] [3, 5] 0 (1/10)
    (by decide)

/-- C10, counterexample: the unconditional per-date difference equation
`corrected[A][i] - raw[A][i] = corrected[B][i] - raw[B][i]` fails on the
concrete input with transects `NA1 = [NaN]`, `NA2 = [0]`, tide `[1]`,
reference elevation `0`, slope `1`: with NaN-propagating arithmetic the
left difference is NaN while the right one is `1`. -/
theorem c10_difference_equation_counterexample :
    optSub
        (((tidalCorrect [("NA1", [none]), ("NA2", [some 0])] [1] 0 1).getD
          0 ("", [])).2.getD 0 none)
        ((([("NA1", [(none : Option ℚ)]), ("NA2", [some 0])]).getD
          0 ("", [])).2.getD 0 none)
      ≠ optSub
        (((tidalCorrect [("NA1", [none]), ("NA2", [some 0])] [1] 0 1).getD
          1 ("", [])).2.getD 0 none)
        ((([("NA1", [(none : Option ℚ)]), ("NA2", [some 0])]).getD
          1 ("", [])).2.getD 0 none) := by
  decide

/-- C10, amended: with a scalar beach slope, (1) the corrected mapping has
exactly the raw mapping's transect names, in order; (2) the corrected value
at a date index is NaN exactly where the raw value is NaN (given a tide
value at that index); (3) for any two transects and any date index at which
both raw values are non-NaN, the corrected-minus-raw differences agree and
equal `(tide - reference_elevation)/slope`. -/
theorem c10_scalar_slope_uniform_correction (cd : CrossDistance)
    (tides : List ℚ) (ref slope : ℚ) :
    ((tidalCorrect cd tides ref slope).map Prod.fst = cd.map Prod.fst)
    ∧ (∀ (j i : ℕ) (k : String) (xs : Series), cd[j]? = some (k, xs) →
        i < xs.length → i < tides.length →
        ∃ ys : Series, (tidalCorrect cd tides ref slope)[j]? = some (k, ys) ∧
          (ys[i]? = some none ↔ xs[i]? = some none))
    ∧ (∀ (jA jB i : ℕ) (kA kB : String) (xsA xsB : Series) (a b : ℚ),
        cd[jA]? = some (kA, xsA) → cd[jB]? = some (kB, xsB) →
        xsA[i]? = some (some a) → xsB[i]? = some (some b) →
        ∀ ht : i < tides.length,
        ∃ cA cB : Option ℚ, ∃ ysA ysB : Series,
          (tidalCorrect cd tides ref slope)[jA]? = some (kA, ysA) ∧
          (tidalCorrect cd tides ref slope)[jB]? = some (kB, ysB) ∧
          ysA[i]? = some cA ∧ ysB[i]? = some cB ∧
          optSub cA (some a) = optSub cB (some b) ∧
          optSub cA (some a) = some ((tides[i] - ref) / slope)) := by
  refine ⟨?_, ?_, ?_⟩
  · simp [tidalCorrect]
  · intro j i k xs hj hi ht
    obtain ⟨ys, hys, hval⟩ := tidalCorrect_getElem cd tides ref slope j i k xs hj hi ht
    refine ⟨ys, hys, ?_⟩
    rw [hval, List.getElem?_eq_getElem hi]
    constructor
    · intro hsome
      have : addTide xs[i] ((tides[i] - ref) / slope) = none :=
        Option.some_injective _ hsome
      cases hx : xs[i] with
      | none => simp
      | some a => rw [hx] at this; simp [addTide] at this
    · intro hsome
      have hx : xs[i] = none := Option.some_injective _ hsome
      rw [hx]
      simp [addTide]
  · intro jA jB i kA kB xsA xsB a b hjA hjB hxA hxB ht
    have hiA : i < xsA.length := by
      rcases List.getElem?_eq_some_iff.mp hxA with ⟨h, _⟩
      exact h
    have hiB : i < xsB.length := by
      rcases List.getElem?_eq_some_iff.mp hxB with ⟨h, _⟩
      exact h
    obtain ⟨ysA, hysA, hvalA⟩ :=
      tidalCorrect_getElem cd tides ref slope jA i kA xsA hjA hiA ht
    obtain ⟨ysB, hysB, hvalB⟩ :=
      tidalCorrect_getElem cd tides ref slope jB i kB xsB hjB hiB ht
    have haA : xsA[i] = some a := by
      rcases List.getElem?_eq_some_iff.mp hxA with ⟨h, hv⟩
      exact hv
    have haB : xsB[i] = some b := by
      rcases List.getElem?_eq_some_iff.mp hxB with ⟨h, hv⟩
      exact hv
    refine ⟨addTide (xsA[i]) ((tides[i] - ref) / slope),
      addTide (xsB[i]) ((tides[i] - ref) / slope), ysA, ysB,
      hysA, hysB, hvalA, hvalB, ?_, ?_⟩
    · rw [haA, haB]
      simp [addTide, optSub]
    · rw [haA]
      simp [addTide, optSub]

/-- Witness for C10 at a concrete input: transects `NA1 = [2]`, `NA2 = [5]`,
tide `[3]`, reference elevation `0`, slope `1/2`; both differences are `6`. -/
theorem c10_scalar_slope_uniform_correction_witness :
    ∃ cA cB : Option ℚ, ∃ ysA ysB : Series,
      (tidalCorrect [("NA1", [some 2]), ("NA2", [some 5])] [3] 0 (1/2))[0]?
        = some ("NA1", ysA) ∧
      (tidalCorrect [("NA1", [some 2]), ("NA2", [some 5])] [3] 0 (1/2))[1]?
        = some ("NA2", ysB) ∧
      ysA[0]? = some cA ∧ ysB[0]? = some cB ∧
      optSub cA (some 2) = optSub cB (some 5) ∧
      optSub cA (some 2) = some ((3 - 0) / (1/2)) := by
  have h := (c10_scalar_slope_uniform_correction
      [("NA1", [some 2]), ("NA2", [some 5])] [3] 0 (1/2)).2.2
      0 1 0 "NA1" "NA2" [some 2] [some 5] 2 5 rfl rfl rfl rfl (by decide)
  obtain ⟨cA, cB, ysA, ysB, h1, h2, h3, h4, h5, h6⟩ := h
  exact ⟨cA, cB, ysA, ysB, h1, h2, h3, h4, h5, h6⟩

lemma intersectOne_eq_none_iff (o u : ℚ × ℚ) (alongDist : ℚ)
    (sl : List (ℚ × ℚ)) :
    intersectOne o u alongDist sl = none
      ↔ ¬ ∃ p ∈ sl, alongOffset o u p ≤ alongDist := by
  unfold intersectOne median
  by_cases hsel : selectPoints o u alongDist sl = []
  · have hno : ¬ ∃ p ∈ sl, alongOffset o u p ≤ alongDist := by
      rw [selectPoints, List.filter_eq_nil_iff] at hsel
      rintro ⟨p, hp, hle⟩
      exact absurd (decide_eq_true hle) (by simpa using hsel p hp)
    simp [hsel, hno]
  · have hne : ¬ ((selectPoints o u alongDist sl).map (chainage o u)).isEmpty := by
      simpa [List.isEmpty_iff] using hsel
    have hyes : ∃ p ∈ sl, alongOffset o u p ≤ alongDist := by
      rcases List.exists_mem_of_ne_nil _ hsel with ⟨p, hp⟩
      rw [selectPoints, List.mem_filter] at hp
      exact ⟨p, hp.1, of_decide_eq_true hp.2⟩
    simp [hne, hyes]

/-- C2: in the Cross-Distance Series produced by the Transect Intersector,
the value for a (transect, date) pair is NaN exactly when no shoreline point
of that date lies within `along_dist` of the transect's cross-shore
projection, and never for any other reason. -/
theorem c2_nan_iff_no_point_in_window (shorelines : List (List (ℚ × ℚ)))
    (transects : List (String × (ℚ × ℚ) × (ℚ × ℚ))) (alongDist : ℚ)
    (j i : ℕ) (name : String) (o u : ℚ × ℚ) (sl : List (ℚ × ℚ))
    (hj : transects[j]? = some (name, o, u)) (hi : shorelines[i]? = some sl) :
    ∃ series : Series,
      (compute_intersection shorelines transects alongDist)[j]?
        = some (name, series) ∧
      (series[i]? = some none ↔ ¬ ∃ p ∈ sl, alongOffset o u p ≤ alongDist) := by
  refine ⟨shorelines.map (intersectOne o u alongDist), ?_, ?_⟩
  · simp [compute_intersection, hj]
  · rw [List.getElem?_map, hi]
    simp only [Option.map_some', Option.some.injEq]
    exact intersectOne_eq_none_iff o u alongDist sl

/-- Witness for C2 at a concrete input: one transect along the x-axis, one
date whose shoreline has no point within the along-shore window. -/
theorem c2_nan_iff_no_point_in_window_witness :
    ∃ series : Series,
      (compute_intersection [[((100 : ℚ), (90 : ℚ))]]
          [("NA1", ((0 : ℚ), (0 : ℚ)), ((1 : ℚ), (0 : ℚ)))] 25)[0]?
        = some ("NA1", series) ∧
      (series[0]? = some none
        ↔ ¬ ∃ p ∈ [((100 : ℚ), (90 : ℚ))], alongOffset (0, 0) (1, 0) p ≤ 25) :=
  c2_nan_iff_no_point_in_window [[(100, 90)]]
    [("NA1", (0, 0), (1, 0))] 25 0 0 "NA1" (0, 0) (1, 0) [(100, 90)] rfl rfl

/-- C3: for every (transect, date) pair with at least one shoreline point in
the along-shore window, the Transect Intersector returns the median of the
signed distances of the selected points along the transect direction from
the landward origin, and the sign convention is positive seaward: a point
strictly seaward of the origin along the unit direction has positive
chainage. -/
theorem c3_median_of_selected_points (shorelines : List (List (ℚ × ℚ)))
    (transects : List (String × (ℚ × ℚ) × (ℚ × ℚ))) (alongDist : ℚ)
    (j i : ℕ) (name : String) (o u : ℚ × ℚ) (sl : List (ℚ × ℚ))
    (hj : transects[j]? = some (name, o, u)) (hi : shorelines[i]? = some sl)
    (hu : dot u u = 1)
    (hsel : ∃ p ∈ sl, alongOffset o u p ≤ alongDist) :
    ∃ series : Series,
      (compute_intersection shorelines transects alongDist)[j]?
        = some (name, series) ∧
      series[i]?
        = some (some (medianD
            ((selectPoints o u alongDist sl).map (chainage o u)))) ∧
      (∀ c : ℚ, 0 < c → 0 < chainage o u (o.1 + c * u.1, o.2 + c * u.2)) := by
  refine ⟨shorelines.map (intersectOne o u alongDist), ?_, ?_, ?_⟩
  · simp [compute_intersection, hj]
  · rw [List.getElem?_map, hi]
    simp only [Option.map_some', Option.some.injEq]
    have hne : selectPoints o u alongDist sl ≠ [] := by
      rcases hsel with ⟨p, hp, hle⟩
      exact List.ne_nil_of_mem (List.mem_filter.mpr ⟨hp, decide_eq_true hle⟩)
    have hmap : ¬ ((selectPoints o u alongDist sl).map (chainage o u)).isEmpty := by
      simpa [List.isEmpty_iff] using hne
    simp [intersectOne, median, hmap]
  · intro c hc
    have hch : chainage o u (o.1 + c * u.1, o.2 + c * u.2) = c * dot u u := by
      simp only [chainage, vsub, dot]
      ring
    rw [hch, hu, mul_one]
    exact hc

/-- Witness for C3 at a concrete input: transect from the origin along the
x-axis, shoreline points `(3, 1)` and `(3, -2)` inside the window and
`(100, 90)` outside it; the returned value is the median `3`. -/
theorem c3_median_of_selected_points_witness :
    ∃ series : Series,
      (compute_intersection [[((3 : ℚ), (1 : ℚ)), (3, -2), (100, 90)]]
          [("NA1", ((0 : ℚ), (0 : ℚ)), ((1 : ℚ), (0 : ℚ)))] 25)[0]?
        = some ("NA1", series) ∧
      series[0]?
        = some (some (medianD
            ((selectPoints (0, 0) (1, 0) 25 [(3, 1), (3, -2), (100, 90)]).map
              (chainage (0, 0) (1, 0))))) ∧
      (∀ c : ℚ, 0 < c →
        0 < chainage (0, 0) (1, 0) ((0 : ℚ) + c * 1, (0 : ℚ) + c * 0)) :=
  c3_median_of_selected_points [[(3, 1), (3, -2), (100, 90)]]
    [("NA1", (0, 0), (1, 0))] 25 0 0 "NA1" (0, 0) (1, 0)
    [(3, 1), (3, -2), (100, 90)] rfl rfl (by norm_num [dot])
    ⟨(3, 1), by norm_num [alongOffset, vsub, dot, perp]⟩

lemma remove_duplicates_aux_pairwise (l : List Entry) :
    ∀ seen : List (ℕ × String),
      ((remove_duplicates_aux seen l).Pairwise (fun a b => keyOf a ≠ keyOf b))
      ∧ ∀ b ∈ remove_duplicates_aux seen l, keyOf b ∉ seen := by
  induction l with
  | nil => intro seen; simp [remove_duplicates_aux]
  | cons e rest ih =>
    intro seen
    by_cases h1 : keyOf e ∈ seen
    · simpa [remove_duplicates_aux, h1] using ih seen
    · have ihe := ih (keyOf e :: seen)
      simp only [remove_duplicates_aux, if_neg h1]
      refine ⟨List.Pairwise.cons ?_ ihe.1, ?_⟩
      · intro b hb heq
        exact (ihe.2 b hb) (List.mem_cons.mpr (Or.inl heq.symm))
      · intro b hb
        rcases List.mem_cons.mp hb with rfl | hb2
        · exact h1
        · exact fun hs => (ihe.2 b hb2) (List.mem_cons.mpr (Or.inr hs))

/-- C4: the Post-Filter output (duplicate removal followed by
accuracy-threshold removal) contains no two entries sharing the same
(date, satellite) key and no entry whose georeferencing-accuracy estimate
exceeds the caller-supplied threshold. -/
theorem c4_post_filter_invariants (l : List Entry) (T : ℚ) :
    ((postFilter l T).Pairwise (fun a b => keyOf a ≠ keyOf b))
    ∧ ∀ e ∈ postFilter l T, e.acc ≤ T := by
  constructor
  · have hpw := (remove_duplicates_aux_pairwise l []).1
    simp only [postFilter, remove_inaccurate_georef, remove_duplicates]
    exact List.Pairwise.sublist (List.filter_sublist _) hpw
  · intro e he
    simp only [postFilter, remove_inaccurate_georef] at he
    exact of_decide_eq_true (List.mem_filter.mp he).2

/-- Witness for C4 at a concrete input: a single accurate entry survives the
Post-Filter and satisfies the accuracy bound. -/
theorem c4_post_filter_invariants_witness :
    (⟨0, "L5", 5, []⟩ : Entry) ∈ postFilter [⟨0, "L5", 5, []⟩] 10 ∧
      (⟨0, "L5", 5, []⟩ : Entry).acc ≤ 10 :=
  ⟨by decide, (c4_post_filter_invariants [⟨0, "L5", 5, []⟩] 10).2 _ (by decide)⟩

/-- C5, counterexample: with the first-seen tie-break the two Post-Filter
passes do not commute.  Two entries share the key (0, L5) with accuracies 15
and 5 and the threshold is 10: duplicate removal first keeps the inaccurate
entry and the accuracy pass then empties the collection, while filtering
first keeps the accurate entry. -/
theorem c5_first_seen_tie_break_not_commutative :
    remove_inaccurate_georef
        (remove_duplicates [⟨0, "L5", 15, []⟩, ⟨0, "L5", 5, []⟩]) 10
      ≠ remove_duplicates
        (remove_inaccurate_georef [⟨0, "L5", 15, []⟩, ⟨0, "L5", 5, []⟩] 10) := by
  decide

lemma remove_duplicates_best_aux_congr (l : List Entry) :
    ∀ s₁ s₂ : List (ℕ × String),
      (∀ x ∈ l, (keyOf x ∈ s₁ ↔ keyOf x ∈ s₂)) →
      remove_duplicates_best_aux s₁ l = remove_duplicates_best_aux s₂ l := by
  induction l with
  | nil => intro s₁ s₂ _; rfl
  | cons e rest ih =>
    intro s₁ s₂ h
    have hrest : ∀ x ∈ rest, (keyOf x ∈ s₁ ↔ keyOf x ∈ s₂) :=
      fun x hx => h x (List.mem_cons_of_mem e hx)
    simp only [remove_duplicates_best_aux]
    by_cases h1 : keyOf e ∈ s₁
    · rw [if_pos h1, if_pos ((h e (List.mem_cons_self e rest)).mp h1)]
      exact ih s₁ s₂ hrest
    · have h1b : keyOf e ∉ s₂ := fun hc =>
        h1 ((h e (List.mem_cons_self e rest)).mpr hc)
      rw [if_neg h1, if_neg h1b]
      by_cases h2 : rest.any (fun x =>
          decide (keyOf x = keyOf e) && decide (x.acc < e.acc))
      · rw [if_pos h2, if_pos h2]
        exact ih s₁ s₂ hrest
      · rw [if_neg h2, if_neg h2]
        refine congrArg (fun t => e :: t) (ih _ _ ?_)
        intro x hx
        simp only [List.mem_cons]
        rw [hrest x hx]

lemma remove_duplicates_best_aux_comm (T : ℚ) (l : List Entry) :
    ∀ seen : List (ℕ × String),
      (remove_duplicates_best_aux seen l).filter
          (fun e => decide (e.acc ≤ T))
        = remove_duplicates_best_aux seen
            (l.filter (fun e => decide (e.acc ≤ T))) := by
  induction l with
  | nil => intro seen; rfl
  | cons e rest ih =>
    intro seen
    by_cases h1 : keyOf e ∈ seen
    · rw [show remove_duplicates_best_aux seen (e :: rest)
            = remove_duplicates_best_aux seen rest from if_pos h1, ih seen,
          List.filter_cons]
      by_cases hT : e.acc ≤ T
      · rw [if_pos (by simpa using hT)]
        rw [show remove_duplicates_best_aux seen
              (e :: rest.filter (fun e => decide (e.acc ≤ T)))
            = remove_duplicates_best_aux seen
              (rest.filter (fun e => decide (e.acc ≤ T))) from if_pos h1]
      · rw [if_neg (by simpa using hT)]
    · by_cases h2 : rest.any (fun x =>
          decide (keyOf x = keyOf e) && decide (x.acc < e.acc))
      · have hstep : remove_duplicates_best_aux seen (e :: rest)
            = remove_duplicates_best_aux seen rest := by
          simp only [remove_duplicates_best_aux, if_neg h1, if_pos h2]
        rw [hstep, ih seen, List.filter_cons]
        by_cases hT : e.acc ≤ T
        · rw [if_pos (by simpa using hT)]
          obtain ⟨x, hx, hpx⟩ := List.any_eq_true.mp h2
          rw [Bool.and_eq_true] at hpx
          have hxk : keyOf x = keyOf e := of_decide_eq_true hpx.1
          have hxa : x.acc < e.acc := of_decide_eq_true hpx.2
          have hxmem : x ∈ rest.filter (fun e => decide (e.acc ≤ T)) :=
            List.mem_filter.mpr
              ⟨hx, decide_eq_true (le_of_lt (lt_of_lt_of_le hxa hT))⟩
          have h2f : (rest.filter (fun e => decide (e.acc ≤ T))).any (fun x =>
              decide (keyOf x = keyOf e) && decide (x.acc < e.acc)) = true :=
            List.any_eq_true.mpr ⟨x, hxmem, by
              rw [Bool.and_eq_true]
              exact ⟨decide_eq_true hxk, decide_eq_true hxa⟩⟩
          simp only [remove_duplicates_best_aux, if_neg h1, if_pos h2f]
        · rw [if_neg (by simpa using hT)]
      · have h2f : ∀ L : List Entry, (∀ x ∈ L, x ∈ rest) →
            L.any (fun x =>
              decide (keyOf x = keyOf e) && decide (x.acc < e.acc)) = false := by
          intro L hL
          rw [List.any_eq_false]
          intro x hx
          have := List.any_eq_false.mp (Bool.eq_false_iff.mpr h2) x (hL x hx)
          exact this
        have hstep : remove_duplicates_best_aux seen (e :: rest)
            = e :: remove_duplicates_best_aux (keyOf e :: seen) rest := by
          simp only [remove_duplicates_best_aux, if_neg h1, if_neg h2]
        rw [hstep, List.filter_cons, List.filter_cons]
        by_cases hT : e.acc ≤ T
        · rw [if_pos (by simpa using hT), if_pos (by simpa using hT)]
          have hrhs : remove_duplicates_best_aux seen
                (e :: rest.filter (fun e => decide (e.acc ≤ T)))
              = e :: remove_duplicates_best_aux (keyOf e :: seen)
                  (rest.filter (fun e => decide (e.acc ≤ T))) := by
            simp only [remove_duplicates_best_aux, if_neg h1,
              if_neg (Bool.eq_false_iff.mp (h2f _
                (fun x hx => (List.mem_filter.mp hx).1)))]
          rw [hrhs, ih (keyOf e :: seen)]
        · rw [if_neg (by simpa using hT), if_neg (by simpa using hT),
            ih (keyOf e :: seen)]
          refine remove_duplicates_best_aux_congr _ _ _ ?_
          intro x hx
          have hxr := List.mem_filter.mp hx
          have hxa : x.acc ≤ T := of_decide_eq_true hxr.2
          have hxk : keyOf x ≠ keyOf e := by
            intro hk
            have := List.any_eq_false.mp (Bool.eq_false_iff.mpr h2) x hxr.1
            have hlt : ¬ x.acc < e.acc := by
              intro hlt
              exact this (by
                rw [Bool.and_eq_true]
                exact ⟨decide_eq_true hk, decide_eq_true hlt⟩)
            have hge : e.acc ≤ x.acc := le_of_not_lt hlt
            exact hT (le_trans hge hxa)
          simp [List.mem_cons, hxk]

/-- C5, amended: with the keep-best-accuracy tie-break (lowest
georeferencing-error estimate wins, earliest such entry on ties — a fixed,
deterministic rule), duplicate removal and accuracy-threshold removal
commute on every Output Collection. -/
theorem c5_best_tie_break_commutes (l : List Entry) (T : ℚ) :
    remove_inaccurate_georef (remove_duplicates_best l) T
      = remove_duplicates_best (remove_inaccurate_georef l T) :=
  remove_duplicates_best_aux_comm T l []

/-- C6: every shoreline in the Shoreline Extractor's output has perimeter
length at least `min_length_sl`; traced boundaries shorter than the
threshold are discarded and never reach the Output Collection. -/
theorem c6_min_length_threshold (len : List (ℚ × ℚ) → ℚ) (minLengthSl : ℚ)
    (traced : List (List (List (ℚ × ℚ)))) (sl : List (ℚ × ℚ))
    (h : sl ∈ extract_shorelines len minLengthSl traced) :
    minLengthSl ≤ len sl := by
  simp only [extract_shorelines] at h
  rcases List.mem_flatten.mp h with ⟨bs, hbs, hsl⟩
  rcases List.mem_map.mp hbs with ⟨scene, hscene, rfl⟩
  simp only [discardShort] at hsl
  exact of_decide_eq_true (List.mem_filter.mp hsl).2

/-- Witness for C6 at a concrete input: with the point count as the length
functional and threshold `2`, a three-point boundary survives and satisfies
the bound. -/
theorem c6_min_length_threshold_witness :
    [((0 : ℚ), (0 : ℚ)), (1, 0), (2, 0)] ∈
      extract_shorelines (fun b => (b.length : ℚ)) 2
        [[[((0 : ℚ), (0 : ℚ)), (1, 0), (2, 0)], [((5 : ℚ), (5 : ℚ))]]] ∧
    (2 : ℚ) ≤ (fun b : List (ℚ × ℚ) => (b.length : ℚ))
        [((0 : ℚ), (0 : ℚ)), (1, 0), (2, 0)] :=
  ⟨by decide,
    c6_min_length_threshold (fun b => (b.length : ℚ)) 2
      [[[((0 : ℚ), (0 : ℚ)), (1, 0), (2, 0)], [((5 : ℚ), (5 : ℚ))]]]
      [((0 : ℚ), (0 : ℚ)), (1, 0), (2, 0)] (by decide)⟩

/-- C7: when the scene list is non-empty but zero scenes yield a valid
shoreline, the interactive reference-shoreline digitization step fails with
the fatal error kind `NoValidDetections`, which is distinct from the
empty-scene-list kind, and does not silently continue with a result. -/
theorem c7_no_valid_detections_fatal {α : Type} (scenes : List α)
    (detect : α → Option (List (ℚ × ℚ)))
    (h1 : scenes ≠ []) (h2 : scenes.filterMap detect = []) :
    get_reference_sl scenes detect
        = Except.error SDSError.NoValidDetections
    ∧ SDSError.NoValidDetections ≠ SDSError.EmptySceneList
    ∧ ∀ sl, get_reference_sl scenes detect ≠ Except.ok sl := by
  cases scenes with
  | nil => exact absurd rfl h1
  | cons s rest =>
    have hstep : get_reference_sl (s :: rest) detect
        = Except.error SDSError.NoValidDetections := by
      simp only [get_reference_sl, h2]
    refine ⟨hstep, by decide, ?_⟩
    intro sl hok
    rw [hstep] at hok
    exact Except.noConfusion hok

/-- Witness for C7 at a concrete input: one scene, a detector that never
yields a valid shoreline. -/
theorem c7_no_valid_detections_fatal_witness :
    get_reference_sl [0]
        (fun _ : ℕ => (none : Option (List (ℚ × ℚ))))
        = Except.error SDSError.NoValidDetections
    ∧ SDSError.NoValidDetections ≠ SDSError.EmptySceneList
    ∧ ∀ sl, get_reference_sl [0]
        (fun _ : ℕ => (none : Option (List (ℚ × ℚ)))) ≠ Except.ok sl :=
  c7_no_valid_detections_fatal [0]
    (fun _ : ℕ => (none : Option (List (ℚ × ℚ)))) (by decide) rfl

lemma closestIdx_spec (ts : List ℤ) (d : ℤ) (hne : ts ≠ []) :
    closestIdx ts d < ts.length
    ∧ (∀ k, k < ts.length →
        |ts.getD (closestIdx ts d) 0 - d| ≤ |ts.getD k 0 - d|)
    ∧ (∀ k, k < closestIdx ts d →
        |ts.getD (closestIdx ts d) 0 - d| < |ts.getD k 0 - d|) := by
  haveI : Std.Antisymm (fun x y : ℤ => x ≤ y) :=
    ⟨fun h1 h2 => le_antisymm h1 h2⟩
  have hdne : distsTo ts d ≠ [] := by simpa [distsTo] using hne
  cases hmin : (distsTo ts d).min? with
  | none => exact absurd (List.min?_eq_none_iff.mp hmin) hdne
  | some m =>
    have hm := (List.min?_eq_some_iff (fun a => le_refl a) min_choice
        (fun a b c => le_min_iff)).mp hmin
    have hidx : closestIdx ts d
        = (distsTo ts d).findIdx (fun x => decide (x = m)) := by
      simp only [closestIdx, hmin]
    have hexists : ∃ x ∈ distsTo ts d, decide (x = m) = true :=
      ⟨m, hm.1, by simp⟩
    have hltd : closestIdx ts d < (distsTo ts d).length := by
      rw [hidx]; exact List.findIdx_lt_length_of_exists hexists
    have hlt : closestIdx ts d < ts.length := by
      simpa [distsTo] using hltd
    have hdk : ∀ k, k < ts.length → (distsTo ts d).getD k 0 = |ts.getD k 0 - d| := by
      intro k hk
      have hkd : k < (distsTo ts d).length := by simpa [distsTo] using hk
      rw [List.getD_eq_getElem _ 0 hkd, List.getD_eq_getElem _ 0 hk]
      simp [distsTo]
    have hvalm : (distsTo ts d).getD (closestIdx ts d) 0 = m := by
      rw [hidx]
      have hw : List.findIdx (fun x => decide (x = m)) (distsTo ts d)
          < (distsTo ts d).length := List.findIdx_lt_length_of_exists hexists
      rw [List.getD_eq_getElem _ 0 hw]
      exact of_decide_eq_true (List.findIdx_getElem (w := hw))
    refine ⟨hlt, ?_, ?_⟩
    · intro k hk
      rw [← hdk _ hlt, ← hdk _ hk, hvalm]
      have hkd : k < (distsTo ts d).length := by simpa [distsTo] using hk
      rw [List.getD_eq_getElem _ 0 hkd]
      exact hm.2 _ (List.getElem_mem hkd)
    · intro k hk
      have hkt : k < ts.length := lt_trans hk hlt
      have hkd : k < (distsTo ts d).length := by simpa [distsTo] using hkt
      rw [← hdk _ hlt, ← hdk _ hkt, hvalm]
      have hne2 : decide ((distsTo ts d)[k] = m) = false :=
        List.not_of_lt_findIdx (hidx ▸ hk)
      have hne3 : (distsTo ts d)[k] ≠ m := of_decide_eq_false hne2
      have hle : m ≤ (distsTo ts d)[k] := hm.2 _ (List.getElem_mem hkd)
      rw [List.getD_eq_getElem _ 0 hkd]
      exact lt_of_le_of_ne hle (Ne.symm hne3)

/-- C8: for every acquisition date, the tide lookup returns exactly one
value (the output has one value per date), obtained by nearest-neighbour
lookup against the Tide Series: the value is the tide sample at an index
whose timestamp distance to the date is minimal, and on ties the earliest
sample is taken (every strictly earlier index has strictly larger
distance), making the lookup deterministic.  The Tide Series is passed by
value and never mutated (the lookup is a pure function of it). -/
theorem c8_nearest_neighbour_tide_lookup (datesSat ts : List ℤ)
    (tides : List ℚ) (hne : ts ≠ []) (hlen : ts.length = tides.length) :
    (get_closest_datapoint datesSat ts tides).length = datesSat.length
    ∧ ∀ (i : ℕ) (d : ℤ), datesSat[i]? = some d →
        ∃ j, j < ts.length ∧
          (get_closest_datapoint datesSat ts tides)[i]?
            = some (tides.getD j 0) ∧
          tides[j]? = some (tides.getD j 0) ∧
          (∀ k, k < ts.length → |ts.getD j 0 - d| ≤ |ts.getD k 0 - d|) ∧
          (∀ k, k < j → |ts.getD j 0 - d| < |ts.getD k 0 - d|) := by
  constructor
  · simp [get_closest_datapoint]
  · intro i d hi
    obtain ⟨hj, hmin, hfirst⟩ := closestIdx_spec ts d hne
    refine ⟨closestIdx ts d, hj, ?_, ?_, hmin, hfirst⟩
    · simp [get_closest_datapoint, List.getElem?_map, hi]
    · have hjt : closestIdx ts d < tides.length := hlen ▸ hj
      rw [List.getElem?_eq_getElem hjt, List.getD_eq_getElem tides 0 hjt]

/-- Witness for C8 at a concrete input with an equidistant tie: date `10`
against timestamps `[0, 9, 11]` (distances `10, 1, 1`); the earliest
nearest sample, index `1` with tide `2`, is returned. -/
theorem c8_nearest_neighbour_tide_lookup_witness :
    (get_closest_datapoint [10] [0, 9, 11] [1, 2, 3]).length = 1
    ∧ ∃ j, j < 3 ∧
        (get_closest_datapoint [10] [0, 9, 11] [1, 2, 3])[0]?
          = some (([1, 2, 3] : List ℚ).getD j 0) ∧
        ([1, 2, 3] : List ℚ)[j]? = some (([1, 2, 3] : List ℚ).getD j 0) ∧
        (∀ k, k < 3 →
          |([0, 9, 11] : List ℤ).getD j 0 - 10|
            ≤ |([0, 9, 11] : List ℤ).getD k 0 - 10|) ∧
        (∀ k, k < j →
          |([0, 9, 11] : List ℤ).getD j 0 - 10|
            < |([0, 9, 11] : List ℤ).getD k 0 - 10|) := by
  have h := c8_nearest_neighbour_tide_lookup [10] [0, 9, 11] [1, 2, 3]
    (by decide) rfl
  exact ⟨h.1, h.2 0 10 rfl⟩

end CoastSat
